import Mathlib

/-!
Verification of the apkparser repository against its natural-language
specification.  The definitions below are shallow embeddings of the Python
source in `src/apkparser/` (`apk.py`, `vd2png.py`): byte buffers become
`List Nat`, machine integers become `Nat`/`Int` with explicit bounds where
overflow matters, fallible operations return `Option`/`Except`.
-/

namespace Apkparser

/-! ## Byte-buffer primitives

Models of reading from an `io.BytesIO` over the raw APK bytes.  A byte
buffer is a `List Nat` (each element a byte value).  `readBytes` models
`f.read(n)` at an absolute position when exactly `n` bytes must be
available (as required by `struct.unpack`, which raises on a short read):
it returns `none` when fewer than `n` bytes remain. -/

def readBytes (buf : List Nat) (pos n : Nat) : Option (List Nat) :=
  if pos + n ≤ buf.length then some ((buf.drop pos).take n) else none

/-- Little-endian value of a byte list (first byte least significant). -/
def leVal (bs : List Nat) : Nat :=
  bs.foldr (fun b acc => b + 256 * acc) 0

/-- Model of `unpack("<I", f.read(4))` at absolute position `pos`. -/
def readU32 (buf : List Nat) (pos : Nat) : Option Nat :=
  (readBytes buf pos 4).map leVal

/-- Model of `unpack("<Q", f.read(8))` at absolute position `pos`. -/
def readU64 (buf : List Nat) (pos : Nat) : Option Nat :=
  (readBytes buf pos 8).map leVal

/-- Little-endian 4-byte encoding of `n % 2^32`. -/
def encodeU32 (n : Nat) : List Nat :=
  [n % 256, n / 256 % 256, n / 256 ^ 2 % 256, n / 256 ^ 3 % 256]

/-- A `u32` length-prefixed chunk, as used throughout the v2 signing block. -/
def lp (xs : List Nat) : List Nat := encodeU32 xs.length ++ xs

/-! ## `APK.format_value` (src/apkparser/apk.py lines 620-636)

Direct translation over `List Char`.  The Python code first checks
`value[0] == "."`; otherwise it computes `v_dot = value.find(".")` and
prefixes `package + "."` when `v_dot` is `0` (dead branch, kept) or `-1`
(no dot at all); any other position leaves the value unchanged. -/

def findDot : List Char → Option Nat
  | [] => none
  | c :: cs => if c = '.' then some 0 else (findDot cs).map (· + 1)

def formatValueL (pkg value : List Char) : List Char :=
  match value with
  | [] => []
  | c :: _ =>
    if c = '.' then pkg ++ value
    else
      match findDot value with
      | some 0 => pkg ++ '.' :: value
      | none => pkg ++ '.' :: value
      | some (_ + 1) => value

/-- `APK.format_value` over `String` (wrapper around the `List Char` model). -/
def formatValue (pkg value : String) : String :=
  String.mk (formatValueL pkg.data value.data)

/-! ## `APK.get_effective_target_sdk_version` (apk.py lines 873-889)

`get_element` returns the attribute string or `None`; both are modelled by
`Option String`.  `parseIntPy` models Python `int(str)` on an optionally
signed decimal string with surrounding whitespace allowed; failure models
the `ValueError` (and `int(None)` models the `TypeError`), both of which
the source catches and turns into `1`. -/

def digitsVal (cs : List Char) : Nat :=
  cs.foldl (fun a c => 10 * a + (c.toNat - 48)) 0

def parseIntPy (s : String) : Option Int :=
  let cs := ((s.data.dropWhile Char.isWhitespace).reverse.dropWhile
      Char.isWhitespace).reverse
  match cs with
  | [] => none
  | c :: rest =>
    let ds := if c = '-' ∨ c = '+' then rest else cs
    if ds ≠ [] ∧ ds.all Char.isDigit then
      some (if c = '-' then -(digitsVal ds : Int) else (digitsVal ds : Int))
    else none

/-- Python truthiness of an optional string: `None` and `""` are falsy. -/
def truthyStr : Option String → Bool
  | none => false
  | some s => s ≠ ""

def effectiveTargetSdkVersion (target minv : Option String) : Int :=
  let t := if truthyStr target then target else minv
  match t with
  | none => 1
  | some s => (parseIntPy s).getD 1

/-! ## `APK.get_uses_implied_permission_list` (apk.py lines 774-822)

Inputs mirror the fields the method reads: the effective target SDK, the
list `self.permissions` of requested permission names, and
`self.uses_permissions` of `(name, maxSdkVersion)` pairs. -/

def permREAD_CALL_LOG : String := "android.permission.READ_CALL_LOG"
def permREAD_CONTACTS : String := "android.permission.READ_CONTACTS"
def permREAD_EXTERNAL_STORAGE : String := "android.permission.READ_EXTERNAL_STORAGE"
def permREAD_PHONE_STATE : String := "android.permission.READ_PHONE_STATE"
def permWRITE_CALL_LOG : String := "android.permission.WRITE_CALL_LOG"
def permWRITE_CONTACTS : String := "android.permission.WRITE_CONTACTS"
def permWRITE_EXTERNAL_STORAGE : String := "android.permission.WRITE_EXTERNAL_STORAGE"

/-- The `for name, version in self.uses_permissions` loop that recovers the
maxSdkVersion of the first `WRITE_EXTERNAL_STORAGE` uses-permission. -/
def maxSdkOfWrite (uses : List (String × Option Int)) : Option Int :=
  match uses.find? (fun p => p.1 = permWRITE_EXTERNAL_STORAGE) with
  | some p => p.2
  | none => none

def impliedPermissions (targetSdk : Int) (permissions : List String)
    (uses : List (String × Option Int)) : List (String × Option Int) :=
  let part1 :=
    if targetSdk < 4 then
      (if permWRITE_EXTERNAL_STORAGE ∉ permissions then
        [(permWRITE_EXTERNAL_STORAGE, (none : Option Int))] else []) ++
      (if permREAD_PHONE_STATE ∉ permissions then
        [(permREAD_PHONE_STATE, (none : Option Int))] else [])
    else []
  let impliedWrite : Prop :=
    targetSdk < 4 ∧ permWRITE_EXTERNAL_STORAGE ∉ permissions
  let part2 :=
    if (permWRITE_EXTERNAL_STORAGE ∈ permissions ∨ impliedWrite) ∧
        permREAD_EXTERNAL_STORAGE ∉ permissions then
      [(permREAD_EXTERNAL_STORAGE, maxSdkOfWrite uses)]
    else []
  let part3 :=
    if targetSdk < 16 then
      (if permREAD_CONTACTS ∈ permissions ∧ permREAD_CALL_LOG ∉ permissions then
        [(permREAD_CALL_LOG, (none : Option Int))] else []) ++
      (if permWRITE_CONTACTS ∈ permissions ∧ permWRITE_CALL_LOG ∉ permissions then
        [(permWRITE_CALL_LOG, (none : Option Int))] else [])
    else []
  part1 ++ part2 ++ part3

/-! ## `Vd2PngConverter.vd2svg` root attributes (src/apkparser/vd2png.py lines 171-192)

The source pops `viewportHeight` into `h` and `viewportWidth` into `w`
(both defaulting to `"480"`) and sets `viewBox = "0 0 {}".format(h, w)`
— height first.  `width`/`height` go through `remove_dp` when present and
default to `"480px"` otherwise (`repl_attr_name` with `default="480px"`). -/

/-- Python `str.replace`: replace non-overlapping occurrences left to
right.  `fuel` (the string length at the call site) bounds the recursion;
one character is consumed per step for the non-empty patterns used here. -/
def replaceAllGo (pat rep : List Char) : List Char → Nat → List Char
  | s, 0 => s
  | [], _ + 1 => []
  | c :: rest, fuel + 1 =>
    if pat.isPrefixOf (c :: rest) then
      rep ++ replaceAllGo pat rep ((c :: rest).drop pat.length) fuel
    else c :: replaceAllGo pat rep rest fuel

def replaceAll (s pat rep : List Char) : List Char :=
  replaceAllGo pat rep s s.length

def removeDp (x : String) : String :=
  String.mk (replaceAll (replaceAll x.data "dp".data []) "dip".data [])

/-- Attribute handling of `repl_attr_name(root, attr, value_transform=remove_dp,
default="480px")`. -/
def svgSizeAttr : Option String → String
  | some v => removeDp v
  | none => "480px"

/-- The `(viewBox, width, height)` attributes that `vd2svg` puts on the
`svg` root, as a function of the drawable root's attributes. -/
def vd2svgRootAttrs (viewportWidth viewportHeight width height : Option String) :
    String × String × String :=
  let h := viewportHeight.getD "480"
  let w := viewportWidth.getD "480"
  ("0 0 " ++ h ++ " " ++ w, svgSizeAttr width, svgSizeAttr height)

/-! ## `APK._resolve_icon_resource` (apk.py lines 350-366)

The candidate list returned by `res_parser.get_resolved_res_configs(res_id)`
is modelled as a list of `(density, file_name)` pairs.

Modelled from the spec: `ARSCParser.get_resolved_res_configs` and
`ARSCResTableConfig.get_density` live in the repository's `axml` module,
which is not present under `src/` (only imported by `apk.py`).  Per §4.3 of
the spec a lookup "with no desired_config, return[s] all configs", each
carrying its density in dpi, with "default/any" configs matching anything —
the default config is therefore modelled with density 0. -/

def resolveAux (maxDpi : Int) : List (Int × String) → Option String → Int → Option String
  | [], res, _ => res
  | (dpi, file) :: rest, res, currentDpi =>
    if currentDpi < dpi ∧ dpi ≤ maxDpi then resolveAux maxDpi rest (some file) dpi
    else resolveAux maxDpi rest res currentDpi

/-- The selection loop of `_resolve_icon_resource`: `res = None;
current_dpi = -1; for config, file_name in candidates: if current_dpi < dpi
<= max_dpi: res = file_name; current_dpi = dpi`. -/
def resolveIconResource (candidates : List (Int × String)) (maxDpi : Int) :
    Option String :=
  resolveAux maxDpi candidates none (-1)

/-- The S1 candidate set of the spec: configs {default, hdpi=240,
xxhdpi=480}, default modelled with density 0 (see above). -/
def s1Candidates : List (Int × String) :=
  [(0, "res/drawable/icon.png"),
   (240, "res/drawable-hdpi/icon.png"),
   (480, "res/drawable-xxhdpi/icon.png")]

/-! ## `APK.get_main_activity` / `APK.get_activities` (apk.py lines 672-718)

A manifest is modelled as the list of its `activity` / `activity-alias`
elements, each with its `android:name`, optional `enabled` attribute, and
the `name`s of the `action` and `category` elements below it.  The Python
code collects names into two sets `x` (MAIN action) and `y` (LAUNCHER
category) and pops an element of the intersection; the model keeps document
order and takes the head, one deterministic refinement of `set.pop()`. -/

structure ManElem where
  isAlias : Bool
  name : String
  enabled : Option String
  actions : List String
  categories : List String
deriving DecidableEq

/-- The skip test: `enabled is not None and enabled != "" and enabled ==
"false"`. -/
def elemSkipped (e : ManElem) : Bool :=
  match e.enabled with
  | none => false
  | some v => v ≠ "" && v = "false"

def actionMAIN : String := "android.intent.action.MAIN"
def categoryLAUNCHER : String := "android.intent.category.LAUNCHER"

/-- Names added to set `x`: elements not skipped with a MAIN action. -/
def mainNames (elems : List ManElem) : List String :=
  ((elems.filter (fun e => !elemSkipped e)).filter
    (fun e => e.actions.contains actionMAIN)).map (fun e => e.name)

/-- Names added to set `y`: elements not skipped with a LAUNCHER category. -/
def launcherNames (elems : List ManElem) : List String :=
  ((elems.filter (fun e => !elemSkipped e)).filter
    (fun e => e.categories.contains categoryLAUNCHER)).map (fun e => e.name)

def getMainActivity (pkg : String) (elems : List ManElem) : Option String :=
  match (mainNames elems).filter (fun n => (launcherNames elems).contains n) with
  | [] => none
  | n :: _ => some (formatValue pkg n)

/-- `get_activities`: `get_elements("activity", "name")` yields
`format_value` of every truthy `name` attribute of an `activity` element
(aliases excluded, disabled ones included). -/
def getActivities (pkg : String) (elems : List ManElem) : List String :=
  ((elems.filter (fun e => !e.isAlias)).filter (fun e => e.name ≠ "")).map
    (fun e => formatValue pkg e.name)

/-! ## `APK.get_certificate_der` tail trimming (apk.py lines 899-926)

`encode(message[1][3])` produces DER bytes; the function then inspects
`cert[0]` and `cert[1]`.  The bytes are the input here (the pyasn1
decode/encode round trip is outside the repository).  Indexing a buffer
shorter than 2 raises in Python, modelled by `none`. -/

def stripA0Header (cert : List Nat) : Option (List Nat) :=
  match cert with
  | t :: l :: _ =>
    if t = 0xA0 then
      if l &&& 0x80 > 1 then some (cert.drop (2 + (l &&& 0x7F)))
      else some (cert.drop 2)
    else some cert
  | _ => none

/-! ## `APK.is_signed_v2` (apk.py lines 1033-1107)

The model starts where the central-directory offset `ocd` is known (the
End-of-Central-Directory scan precedes it in the source).  Failed
`unpack`s, failed `assert`s and out-of-range seeks raise in Python and are
modelled as `.error`; `.ok b` is the value stored in `self._is_signed_v2`.
The key/value pairs are accumulated as a list (the Python dict keyed by
`key`; only key membership matters here, with `get_certificates_der_v2`
taking its block bytes separately below). -/

def pkCentralDir : List Nat := [0x50, 0x4B, 0x01, 0x02]

/-- The bytes of `b"APK Sig Block 42"`. -/
def apkSigMagic : List Nat :=
  [65, 80, 75, 32, 83, 105, 103, 32, 66, 108, 111, 99, 107, 32, 52, 50]

def apkSigKeySignature : Nat := 0x7109871A

/-- `f.read(n)` as Python performs it mid-stream: short reads are silent,
so the result is whatever is available (possibly fewer than `n` bytes).
A negative requested count in Python reads everything remaining; callers
pass the adjusted count explicitly. -/
def readAvail (buf : List Nat) (pos n : Nat) : List Nat :=
  (buf.drop pos).take n

/-- The `while f.tell() < end_offset - 24` loop storing `(key, value)`
pairs: read `size:u64, key:u32`, then `value = f.read(size - 4)` (all
remaining bytes when `size < 4`, Python's `read` of a negative count).
`fuel` bounds the recursion; each step advances by at least 12 bytes. -/
def collectPairs (buf : List Nat) (bound : Nat) :
    Nat → Nat → Option (List (Nat × List Nat))
  | _, 0 => none
  | pos, fuel + 1 =>
    if pos < bound then
      match readU64 buf pos, readU32 buf (pos + 8) with
      | some size, some key =>
        let n := if size < 4 then buf.length - (pos + 12) else size - 4
        let value := readAvail buf (pos + 12) n
        (collectPairs buf bound (pos + 12 + value.length) fuel).map
          (fun rest => (key, value) :: rest)
      | _, _ => none
    else some []

def isSignedV2 (buf : List Nat) (ocd : Nat) : Except String Bool :=
  if readBytes buf ocd 4 ≠ some pkCentralDir then
    .error "No Central Dir at specified offset"
  else if ocd < 24 then .error "seek out of range"
  else
    match readU64 buf (ocd - 24), readBytes buf (ocd - 16) 16 with
    | some sizeOfBlock, some magic =>
      if magic ≠ apkSigMagic then .ok false
      else if ocd < sizeOfBlock + 8 then .error "seek out of range"
      else
        match readU64 buf (ocd - 8 - sizeOfBlock) with
        | some sizeOfBlockStart =>
          if sizeOfBlockStart ≠ sizeOfBlock then
            .error "Sizes at beginning and and does not match!"
          else
            match collectPairs buf (ocd - 24) (ocd - sizeOfBlock) (ocd + 1) with
            | some pairs => .ok (pairs.any (fun p => p.1 = apkSigKeySignature))
            | none => .error "unpack failed"
        | none => .error "unpack failed"
    | _, _ => .error "unpack failed"

/-! ## `APK.get_certificates_der_v2` (apk.py lines 1109-1148)

Input: `self._v2_blocks[APK_SIG_KEY_SIGNATURE]` (the value bytes of the
0x7109871A pair).  `block.seek(n, SEEK_CUR)` may move past the end without
error; a later 4-byte `unpack` then fails.  `block.read(len_cert)` is a
silent possibly-short read. -/

/-- The inner `while block.tell() < start_certs + len_certs` loop: read
`len_cert:u32`, append `block.read(len_cert)`.  Returns the certificates
read and the final stream position. -/
def certsLoop (bb : List Nat) (stop : Nat) :
    Nat → Nat → Option (List (List Nat) × Nat)
  | _, 0 => none
  | pos, fuel + 1 =>
    if pos < stop then
      match readU32 bb pos with
      | some lenCert =>
        let c := readAvail bb (pos + 4) lenCert
        (certsLoop bb stop (pos + 4 + c.length) fuel).map
          (fun r => (c :: r.1, r.2))
      | none => none
    else some ([], pos)

/-- The outer `while block.tell() < len(block_bytes)` loop over signers:
read `size_signer`, `len_signed_data`, `len_digests` (skip the digests),
`len_certs` (read the certificates), then skip the additional attributes,
the signatures and the public key. -/
def signersLoop (bb : List Nat) : Nat → Nat → Option (List (List Nat))
  | _, 0 => none
  | pos, fuel + 1 =>
    if pos < bb.length then
      match readU32 bb pos, readU32 bb (pos + 4), readU32 bb (pos + 8) with
      | some _sizeSigner, some _lenSignedData, some lenDigests =>
        let p1 := pos + 12 + lenDigests
        match readU32 bb p1 with
        | some lenCerts =>
          match certsLoop bb (p1 + 4 + lenCerts) (p1 + 4) (bb.length + 1) with
          | some (certs, p2) =>
            match readU32 bb p2 with
            | some lenAttr =>
              let p3 := p2 + 4 + lenAttr
              match readU32 bb p3 with
              | some lenSigs =>
                let p4 := p3 + 4 + lenSigs
                match readU32 bb p4 with
                | some lenPublickey =>
                  (signersLoop bb (p4 + 4 + lenPublickey) fuel).map
                    (fun rest => certs ++ rest)
                | none => none
              | none => none
            | none => none
          | none => none
        | none => none
      | _, _, _ => none
    else some []

def getCertificatesDerV2 (blockBytes : List Nat) : Except String (List (List Nat)) :=
  match readU32 blockBytes 0 with
  | some sizeSequence =>
    if sizeSequence + 4 = blockBytes.length then
      match signersLoop blockBytes 4 (blockBytes.length + 1) with
      | some certs => .ok certs
      | none => .error "unpack failed"
    else .error "size of sequence and blocksize does not match"
  | none => .error "unpack failed"

/-! ### Well-formed v2 signer encoding

The on-disk layout the loop above walks, built from explicit fields; used
to state what `get_certificates_der_v2` returns on well-formed blocks. -/

structure V2Signer where
  digests : List Nat
  certs : List (List Nat)
  attrs : List Nat
  sigs : List Nat
  pubkey : List Nat

def certsBytes (certs : List (List Nat)) : List Nat :=
  (certs.map lp).flatten

def signedDataBytes (s : V2Signer) : List Nat :=
  lp s.digests ++ lp (certsBytes s.certs) ++ lp s.attrs

def signerBodyBytes (s : V2Signer) : List Nat :=
  lp (signedDataBytes s) ++ lp s.sigs ++ lp s.pubkey

def encodeSigner (s : V2Signer) : List Nat :=
  lp (signerBodyBytes s)

def encodeV2Block (signers : List V2Signer) : List Nat :=
  lp ((signers.map encodeSigner).flatten)

/-- All length fields of a signer fit in a `u32`, so their 4-byte
encodings read back exactly. -/
def signerWF (s : V2Signer) : Prop :=
  s.digests.length < 2 ^ 32 ∧
  (∀ c ∈ s.certs, c.length < 2 ^ 32) ∧
  (certsBytes s.certs).length < 2 ^ 32 ∧
  (signedDataBytes s).length < 2 ^ 32 ∧
  s.attrs.length < 2 ^ 32 ∧
  s.sigs.length < 2 ^ 32 ∧
  s.pubkey.length < 2 ^ 32 ∧
  (signerBodyBytes s).length < 2 ^ 32

instance (s : V2Signer) : Decidable (signerWF s) := by
  unfold signerWF
  infer_instance

/-! ## Concrete instances used by witnesses and counterexamples -/

/-- Byte tail of a minimal v2-signed APK: `size_of_block` 37,
one pair (size 5, key 0x7109871A, value `[1]`), magic, and the first
central-directory header bytes at offset 45. -/
def c3Buf : List Nat :=
  [37, 0, 0, 0, 0, 0, 0, 0] ++
  [5, 0, 0, 0, 0, 0, 0, 0] ++ [0x1A, 0x87, 0x09, 0x71] ++ [1] ++
  [37, 0, 0, 0, 0, 0, 0, 0] ++ apkSigMagic ++ pkCentralDir

/-- Same as `c3Buf` but with the magic's last byte corrupted. -/
def c3BufBadMagic : List Nat :=
  [37, 0, 0, 0, 0, 0, 0, 0] ++
  [5, 0, 0, 0, 0, 0, 0, 0] ++ [0x1A, 0x87, 0x09, 0x71] ++ [1] ++
  [37, 0, 0, 0, 0, 0, 0, 0] ++
  [65, 80, 75, 32, 83, 105, 103, 32, 66, 108, 111, 99, 107, 32, 52, 51] ++
  pkCentralDir

/-- A v2 signature block value holding one signer with zero certificates:
`lp` of one `encodeSigner ⟨[], [], [], [], []⟩`, written out byte by byte. -/
def c4EmptyCertsBlock : List Nat :=
  [28, 0, 0, 0,
   24, 0, 0, 0,
   12, 0, 0, 0,
   0, 0, 0, 0, 0, 0, 0, 0, 0, 0, 0, 0,
   0, 0, 0, 0,
   0, 0, 0, 0]

/-- A manifest whose only MAIN+LAUNCHER declarer is an `activity-alias`
named `A`; the only `activity` element is named `B`. -/
def c2Elems : List ManElem :=
  [⟨true, "A", none, [actionMAIN], [categoryLAUNCHER]⟩,
   ⟨false, "B", none, [], []⟩]

/-- The property claim C7 states for attribute strings `t`
(targetSdkVersion), `m` (minSdkVersion) and result `r`: `r` is the parse of
`t` when present and parseable, otherwise the parse of `m` when parseable,
otherwise 1; and `r ≥ 1` in all cases. -/
def claimC7Property (t m : Option String) (r : Int) : Prop :=
  (∀ s k, t = some s → parseIntPy s = some k → r = k) ∧
  ((t = none ∨ ∃ s, t = some s ∧ parseIntPy s = none) →
    (∀ s k, m = some s → parseIntPy s = some k → r = k) ∧
    ((m = none ∨ ∃ s, m = some s ∧ parseIntPy s = none) → r = 1)) ∧
  1 ≤ r

/-! # Theorems -/

theorem findDot_eq_none_of_not_mem {value : List Char} (h : '.' ∉ value) :
    findDot value = none := by
  induction value with
  | nil => rfl
  | cons c cs ih =>
    have hc : c ≠ '.' := fun e => h (by simp [e])
    have hcs : '.' ∉ cs := fun m => h (List.mem_cons_of_mem _ m)
    simp [findDot, hc, ih hcs]

theorem findDot_exists_of_mem {value : List Char} (h : '.' ∈ value) :
    ∃ k, findDot value = some k := by
  induction value with
  | nil => cases h
  | cons c cs ih =>
    by_cases hc : c = '.'
    · exact ⟨0, by simp [findDot, hc]⟩
    · have hm : '.' ∈ cs := by
        rcases List.mem_cons.mp h with h1 | h1
        · exact absurd h1.symm hc
        · exact h1
      obtain ⟨k, hk⟩ := ih hm
      exact ⟨k + 1, by simp [findDot, hc, hk]⟩

/-- C8: for every non-empty attribute value and package, `format_value`
prefixes the package when the value begins with `'.'`, prefixes
`package ++ "."` when the value contains no `'.'`, and returns the value
unchanged otherwise; concretely, with package `com.ex`, `.MainAct` formats
to `com.ex.MainAct`, `MyApp` to `com.ex.MyApp`, and `com.x.Y` is
unchanged. -/
theorem c8_format_value (pkg : List Char) (c : Char) (cs : List Char) :
    (c = '.' → formatValueL pkg (c :: cs) = pkg ++ c :: cs) ∧
    ('.' ∉ c :: cs → formatValueL pkg (c :: cs) = pkg ++ '.' :: c :: cs) ∧
    (c ≠ '.' → '.' ∈ c :: cs → formatValueL pkg (c :: cs) = c :: cs) ∧
    formatValue "com.ex" ".MainAct" = "com.ex.MainAct" ∧
    formatValue "com.ex" "MyApp" = "com.ex.MyApp" ∧
    formatValue "com.ex" "com.x.Y" = "com.x.Y" := by
  refine ⟨?_, ?_, ?_, by decide, by decide, by decide⟩
  · intro h
    simp [formatValueL, h]
  · intro h
    have hc : c ≠ '.' := fun e => h (by simp [e])
    have hn : findDot (c :: cs) = none := findDot_eq_none_of_not_mem h
    simp [formatValueL, hc, hn]
  · intro hc hm
    have hm' : '.' ∈ cs := by
      rcases List.mem_cons.mp hm with h1 | h1
      · exact absurd h1.symm hc
      · exact h1
    obtain ⟨k, hk⟩ := findDot_exists_of_mem hm'
    have hdot : findDot (c :: cs) = some (k + 1) := by
      simp [findDot, hc, hk]
    simp [formatValueL, hc, hdot]

/-- C8 witness: the general clauses applied at package `com.ex` and value
`.MainAct`. -/
theorem c8_format_value_witness :
    ('.' = '.') ∧ formatValueL "com.ex".data ".MainAct".data =
      "com.ex".data ++ ".MainAct".data :=
  ⟨rfl, (c8_format_value "com.ex".data '.' "MainAct".data).1 rfl⟩

/-- C9: claim says the SVG gets `viewBox="0 0 W H"` (width first).  The
code builds `"0 0 {} {}".format(h, w)` with the viewport height first:
for `viewportWidth="24"`, `viewportHeight="48"` it emits `0 0 48 24`,
not the claimed `0 0 24 48`.  The width/height attribute handling
(dp/dip stripped, `480px` default) does match the claim. -/
theorem c9_viewbox_height_first :
    (vd2svgRootAttrs (some "24") (some "48") none none).1 = "0 0 48 24" ∧
    "0 0 48 24" ≠ "0 0 24 48" ∧
    (vd2svgRootAttrs (some "24") (some "48") (some "24dp") (some "48dip")).2 =
      ("24", "48") ∧
    (vd2svgRootAttrs none none none none).2 = ("480px", "480px") := by
  refine ⟨rfl, by decide, by decide, rfl⟩

/-- C10: the implied-permission list is disjoint from the requested
permissions: every entry's name is absent from `self.permissions`. -/
theorem c10_implied_disjoint (targetSdk : Int) (permissions : List String)
    (uses : List (String × Option Int)) (p : String) (m : Option Int)
    (hmem : (p, m) ∈ impliedPermissions targetSdk permissions uses) :
    p ∉ permissions := by
  unfold impliedPermissions at hmem
  simp only [List.mem_append] at hmem
  rcases hmem with (h | h) | h
  · split_ifs at h <;>
      simp only [List.mem_append, List.mem_singleton, List.not_mem_nil,
        Prod.mk.injEq, or_false, false_or] at h <;>
      first
        | exact h.elim
        | (rcases h with ⟨rfl, -⟩ | ⟨rfl, -⟩ <;> assumption)
  · split_ifs at h with hg
    · simp only [List.mem_singleton, Prod.mk.injEq] at h
      rw [h.1]
      exact hg.2
    · exact absurd h (List.not_mem_nil _)
  · split_ifs at h <;>
      simp only [List.mem_append, List.mem_singleton, List.not_mem_nil,
        Prod.mk.injEq, or_false, false_or] at h <;>
      first
        | exact h.elim
        | (rcases h with ⟨rfl, -⟩ | ⟨rfl, -⟩ <;> simp_all)

/-- C10 witness: with target SDK 3 and nothing requested,
`WRITE_EXTERNAL_STORAGE` is implied and (vacuously) not requested. -/
theorem c10_implied_disjoint_witness :
    (permWRITE_EXTERNAL_STORAGE, (none : Option Int)) ∈
      impliedPermissions 3 [] [] ∧
    permWRITE_EXTERNAL_STORAGE ∉ ([] : List String) :=
  ⟨by decide, c10_implied_disjoint 3 [] [] _ none (by decide)⟩

/-- C6: the implied-permission list contains `[WRITE_EXTERNAL_STORAGE,
None]` and `[READ_PHONE_STATE, None]` when the effective target SDK is
below 4 and they are not requested; contains `READ_EXTERNAL_STORAGE`
carrying the maxSdkVersion of the originating `WRITE_EXTERNAL_STORAGE`
uses-permission whenever `WRITE_EXTERNAL_STORAGE` is requested or implied
but `READ_EXTERNAL_STORAGE` is not; propagates contacts permissions to
call-log ones below SDK 16; and a target SDK of 3 with no storage
permissions yields `WRITE_EXTERNAL_STORAGE`, `READ_EXTERNAL_STORAGE` and
`READ_PHONE_STATE`. -/
theorem c6_implied_permissions (targetSdk : Int) (permissions : List String)
    (uses : List (String × Option Int)) :
    (targetSdk < 4 → permWRITE_EXTERNAL_STORAGE ∉ permissions →
      (permWRITE_EXTERNAL_STORAGE, (none : Option Int)) ∈
        impliedPermissions targetSdk permissions uses) ∧
    (targetSdk < 4 → permREAD_PHONE_STATE ∉ permissions →
      (permREAD_PHONE_STATE, (none : Option Int)) ∈
        impliedPermissions targetSdk permissions uses) ∧
    ((permWRITE_EXTERNAL_STORAGE ∈ permissions ∨
        (targetSdk < 4 ∧ permWRITE_EXTERNAL_STORAGE ∉ permissions)) →
      permREAD_EXTERNAL_STORAGE ∉ permissions →
      (permREAD_EXTERNAL_STORAGE, maxSdkOfWrite uses) ∈
        impliedPermissions targetSdk permissions uses) ∧
    (targetSdk < 16 → permREAD_CONTACTS ∈ permissions →
      permREAD_CALL_LOG ∉ permissions →
      (permREAD_CALL_LOG, (none : Option Int)) ∈
        impliedPermissions targetSdk permissions uses) ∧
    (targetSdk < 16 → permWRITE_CONTACTS ∈ permissions →
      permWRITE_CALL_LOG ∉ permissions →
      (permWRITE_CALL_LOG, (none : Option Int)) ∈
        impliedPermissions targetSdk permissions uses) ∧
    ((permWRITE_EXTERNAL_STORAGE, (none : Option Int)) ∈
        impliedPermissions 3 [] [] ∧
     (permREAD_EXTERNAL_STORAGE, (none : Option Int)) ∈
        impliedPermissions 3 [] [] ∧
     (permREAD_PHONE_STATE, (none : Option Int)) ∈
        impliedPermissions 3 [] []) := by
  refine ⟨?_, ?_, ?_, ?_, ?_, by decide⟩
  · intro h4 hw
    simp [impliedPermissions, h4, hw]
  · intro h4 hr
    simp only [impliedPermissions, List.append_assoc, List.mem_append]
    refine Or.inl ?_
    rw [if_pos h4]
    simp only [List.mem_append]
    refine Or.inr ?_
    rw [if_pos hr]
    simp
  · intro hwi hr
    simp only [impliedPermissions, List.append_assoc, List.mem_append]
    refine Or.inr (Or.inl ?_)
    rw [if_pos ⟨hwi, hr⟩]
    simp
  · intro h16 hrc hrcl
    simp only [impliedPermissions, List.append_assoc, List.mem_append]
    refine Or.inr (Or.inr ?_)
    rw [if_pos h16]
    simp only [List.mem_append]
    refine Or.inl ?_
    rw [if_pos ⟨hrc, hrcl⟩]
    simp
  · intro h16 hwc hwcl
    simp only [impliedPermissions, List.append_assoc, List.mem_append]
    refine Or.inr (Or.inr ?_)
    rw [if_pos h16]
    simp only [List.mem_append]
    refine Or.inr ?_
    rw [if_pos ⟨hwc, hwcl⟩]
    simp

/-- C6 witness: the first clause applied at target SDK 3 with no
requested permissions. -/
theorem c6_implied_permissions_witness :
    (3 : Int) < 4 ∧
    (permWRITE_EXTERNAL_STORAGE, (none : Option Int)) ∈
      impliedPermissions 3 [] [] :=
  ⟨by decide, (c6_implied_permissions 3 [] []).1 (by decide) (by decide)⟩

/-- C7 counterexample: the claim says that when `targetSdkVersion` is not
parseable the result falls back to a parseable `minSdkVersion`.  With
`targetSdkVersion="x"` and `minSdkVersion="5"` the code catches the
`ValueError` from `int("x")` and returns 1, not 5. -/
theorem c7_counterexample :
    ¬ claimC7Property (some "x") (some "5")
        (effectiveTargetSdkVersion (some "x") (some "5")) := by
  intro h
  have h5 := (h.2.1 (Or.inr ⟨"x", rfl, by decide⟩)).1 "5" 5 rfl (by decide)
  rw [show effectiveTargetSdkVersion (some "x") (some "5") = 1 from by decide]
    at h5
  exact absurd h5 (by decide)

/-- C7 (amended): the result is `int(targetSdkVersion)` when that
attribute is present, non-empty and parseable; when it is absent or
empty, the result is `int(minSdkVersion)` when parseable; in every other
case (including a present but unparseable `targetSdkVersion`) the result
is 1.  The result is ≥ 1 whenever every parsed attribute value is ≥ 1
(the code itself can return 0 or negatives for pathological manifests). -/
theorem c7_effective_target_sdk (target minv : Option String) :
    (∀ s k, target = some s → s ≠ "" → parseIntPy s = some k →
      effectiveTargetSdkVersion target minv = k) ∧
    (truthyStr target = false → ∀ s k, minv = some s → parseIntPy s = some k →
      effectiveTargetSdkVersion target minv = k) ∧
    (truthyStr target = false → minv = none →
      effectiveTargetSdkVersion target minv = 1) ∧
    (truthyStr target = false → ∀ s, minv = some s → parseIntPy s = none →
      effectiveTargetSdkVersion target minv = 1) ∧
    (∀ s, target = some s → s ≠ "" → parseIntPy s = none →
      effectiveTargetSdkVersion target minv = 1) ∧
    ((∀ s k, (target = some s ∨ minv = some s) → parseIntPy s = some k →
        1 ≤ k) →
      1 ≤ effectiveTargetSdkVersion target minv) := by
  refine ⟨?_, ?_, ?_, ?_, ?_, ?_⟩
  · intro s k ht hs hp
    subst ht
    simp [effectiveTargetSdkVersion, truthyStr, hs, hp]
  · intro ht s k hm hp
    subst hm
    simp [effectiveTargetSdkVersion, ht, hp]
  · intro ht hm
    subst hm
    simp [effectiveTargetSdkVersion, ht]
  · intro ht s hm hp
    subst hm
    simp [effectiveTargetSdkVersion, ht, hp]
  · intro s ht hs hp
    subst ht
    simp [effectiveTargetSdkVersion, truthyStr, hs, hp]
  · intro h
    unfold effectiveTargetSdkVersion
    rcases htr : truthyStr target with _ | _
    · simp only [htr, Bool.false_eq_true, if_false]
      cases minv with
      | none => simp
      | some s =>
        cases hp : parseIntPy s with
        | none => simp [hp]
        | some k => simpa [hp] using h s k (Or.inr rfl) hp
    · simp only [htr, if_true]
      cases target with
      | none => simp
      | some s =>
        cases hp : parseIntPy s with
        | none => simp [hp]
        | some k => simpa [hp] using h s k (Or.inl rfl) hp

/-- C7 witness: the first clause at `targetSdkVersion="28"`. -/
theorem c7_effective_target_sdk_witness :
    parseIntPy "28" = some 28 ∧
    effectiveTargetSdkVersion (some "28") none = 28 :=
  ⟨by decide,
    (c7_effective_target_sdk (some "28") none).1 "28" 28 rfl (by decide)
      (by decide)⟩

/-- C5 counterexample: the claim says that whenever the re-encoding
begins with tag byte `0xA0` exactly the two-byte tag+length header is
stripped.  On the long-form length `0x82` (total header 4 bytes) the code
strips four bytes: dropping only two would leave the two length bytes
`0x00 0x03` in front of the content. -/
theorem c5_counterexample :
    stripA0Header [0xA0, 0x82, 0x00, 0x03, 1, 2, 3] = some [1, 2, 3] ∧
    List.drop 2 [0xA0, 0x82, 0x00, 0x03, 1, 2, 3] = [0x00, 0x03, 1, 2, 3] ∧
    ([1, 2, 3] : List Nat) ≠ [0x00, 0x03, 1, 2, 3] := by decide

/-- C5 (amended): when the re-encoded `[1][3]` element begins with the
context-specific tag `0xA0`, the identifier and length octets are
stripped: two bytes for a short-form length (`l & 0x80 = 0`), and
`2 + (l & 0x7F)` bytes for a long-form length (`l & 0x80` set), leaving
the content octets; other leading tags are returned unchanged. -/
theorem c5_strip_a0 (l : Nat) (rest : List Nat) :
    (l &&& 0x80 = 0 → stripA0Header (0xA0 :: l :: rest) = some rest) ∧
    (l &&& 0x80 = 0x80 →
      stripA0Header (0xA0 :: l :: rest) = some (rest.drop (l &&& 0x7F))) ∧
    (∀ t, t ≠ 0xA0 → stripA0Header (t :: l :: rest) = some (t :: l :: rest)) := by
  refine ⟨?_, ?_, ?_⟩
  · intro h
    simp [stripA0Header, h]
  · intro h
    have h2 : 2 + (l &&& 0x7F) = ((l &&& 0x7F) + 1) + 1 := by omega
    simp [stripA0Header, h, h2]
  · intro t ht
    simp [stripA0Header, ht]

/-- C5 witness: the long-form clause at length byte `0x82`. -/
theorem c5_strip_a0_witness :
    (0x82 &&& 0x80 = 0x80) ∧
    stripA0Header [0xA0, 0x82, 0x00, 0x03, 9, 9] =
      some (List.drop (0x82 &&& 0x7F) [0x00, 0x03, 9, 9]) :=
  ⟨by decide, (c5_strip_a0 0x82 [0x00, 0x03, 9, 9]).2.1 (by decide)⟩

theorem resolveAux_spec (maxDpi : Int) :
    ∀ (l : List (Int × String)) (res : Option String) (cur : Int),
      ((∀ p ∈ l, ¬(cur < p.1 ∧ p.1 ≤ maxDpi)) ∧
        resolveAux maxDpi l res cur = res) ∨
      (∃ p ∈ l, cur < p.1 ∧ p.1 ≤ maxDpi ∧
        resolveAux maxDpi l res cur = some p.2 ∧
        ∀ q ∈ l, q.1 ≤ maxDpi → q.1 ≤ p.1) := by
  intro l
  induction l with
  | nil => exact fun res cur => Or.inl ⟨by simp, rfl⟩
  | cons hd tl ih =>
    intro res cur
    obtain ⟨dpi, file⟩ := hd
    by_cases hc : cur < dpi ∧ dpi ≤ maxDpi
    · rcases ih (some file) dpi with ⟨hnone, heq⟩ | ⟨p, hp, hlt, hle, heq, hmax⟩
      · refine Or.inr ⟨(dpi, file), List.mem_cons_self _ _, hc.1, hc.2, ?_, ?_⟩
        · simpa [resolveAux, hc] using heq
        · intro q hq hqle
          rcases List.mem_cons.mp hq with rfl | hq
          · exact le_refl _
          · by_contra hgt
            exact hnone q hq ⟨by omega, hqle⟩
      · refine Or.inr ⟨p, List.mem_cons_of_mem _ hp, by omega, hle, ?_, ?_⟩
        · simpa [resolveAux, hc] using heq
        · intro q hq hqle
          rcases List.mem_cons.mp hq with rfl | hq
          · omega
          · exact hmax q hq hqle
    · rcases ih res cur with ⟨hnone, heq⟩ | ⟨p, hp, hlt, hle, heq, hmax⟩
      · refine Or.inl ⟨?_, by simpa [resolveAux, hc] using heq⟩
        intro q hq
        rcases List.mem_cons.mp hq with rfl | hq
        · exact hc
        · exact hnone q hq
      · refine Or.inr ⟨p, List.mem_cons_of_mem _ hp, hlt, hle, ?_, ?_⟩
        · simpa [resolveAux, hc] using heq
        · intro q hq hqle
          rcases List.mem_cons.mp hq with rfl | hq
          · by_contra hgt
            exact hc ⟨by omega, hqle⟩
          · exact hmax q hq hqle

/-- C1: `_resolve_icon_resource` returns the candidate file name whose
config has the largest density not exceeding `max_dpi` (a result exists
whenever some candidate qualifies), and on the S1 candidate set
{default, hdpi=240, xxhdpi=480} it picks the hdpi path at `max_dpi=320`,
the xxhdpi path at `max_dpi=65536`, and the default path at
`max_dpi=120`. -/
theorem c1_resolve_icon_resource (candidates : List (Int × String))
    (maxDpi : Int) (hnn : ∀ p ∈ candidates, (0 : Int) ≤ p.1) :
    (∀ f, resolveIconResource candidates maxDpi = some f →
      ∃ p ∈ candidates, p.2 = f ∧ p.1 ≤ maxDpi ∧
        ∀ q ∈ candidates, q.1 ≤ maxDpi → q.1 ≤ p.1) ∧
    ((∃ p ∈ candidates, p.1 ≤ maxDpi) →
      ∃ f, resolveIconResource candidates maxDpi = some f) ∧
    resolveIconResource s1Candidates 320 = some "res/drawable-hdpi/icon.png" ∧
    resolveIconResource s1Candidates 65536 =
      some "res/drawable-xxhdpi/icon.png" ∧
    resolveIconResource s1Candidates 120 = some "res/drawable/icon.png" := by
  refine ⟨?_, ?_, by decide, by decide, by decide⟩
  · intro f hf
    rcases resolveAux_spec maxDpi candidates none (-1) with ⟨-, heq⟩ |
      ⟨p, hp, -, hle, heq, hmax⟩
    · rw [resolveIconResource, heq] at hf
      cases hf
    · rw [resolveIconResource, heq] at hf
      exact ⟨p, hp, Option.some_injective _ hf, hle, hmax⟩
  · rintro ⟨p, hp, hle⟩
    rcases resolveAux_spec maxDpi candidates none (-1) with ⟨hnone, -⟩ |
      ⟨q, hq, -, -, heq, -⟩
    · exact absurd ⟨by have := hnn p hp; omega, hle⟩ (hnone p hp)
    · exact ⟨q.2, by rw [resolveIconResource, heq]⟩

/-- C1 witness: the general clauses applied to the S1 candidate set at
`max_dpi = 320`. -/
theorem c1_resolve_icon_resource_witness :
    (∀ p ∈ s1Candidates, (0 : Int) ≤ p.1) ∧
    resolveIconResource s1Candidates 320 = some "res/drawable-hdpi/icon.png" :=
  ⟨by decide, (c1_resolve_icon_resource s1Candidates 320 (by decide)).2.2.1⟩

/-- C2 counterexample: the claim says a non-null `get_main_activity()`
equals some element of `get_activities()`.  In `c2Elems` the only
MAIN+LAUNCHER declarer is an `activity-alias`, so `get_main_activity()`
returns `com.ex.A` while `get_activities()` is `[com.ex.B]`. -/
theorem c2_counterexample :
    getMainActivity "com.ex" c2Elems = some "com.ex.A" ∧
    "com.ex.A" ∉ getActivities "com.ex" c2Elems := by decide

/-- C2 (amended): `get_main_activity()` is null iff no name is declared
with the MAIN action by some enabled activity or activity-alias and with
the LAUNCHER category by some enabled activity or activity-alias; when
non-null it is the package-prefix formatting of the first such name, and
it belongs to `get_activities()` whenever that name is carried by an
`activity` element (it may instead be an `activity-alias`, which
`get_activities()` does not list). -/
theorem c2_main_activity (pkg : String) (elems : List ManElem) :
    (getMainActivity pkg elems = none ↔
      ∀ n, ¬(n ∈ mainNames elems ∧ n ∈ launcherNames elems)) ∧
    (∀ v, getMainActivity pkg elems = some v →
      ∃ n, n ∈ mainNames elems ∧ n ∈ launcherNames elems ∧
        v = formatValue pkg n ∧
        ((∃ e ∈ elems, e.isAlias = false ∧ e.name = n ∧ n ≠ "") →
          v ∈ getActivities pkg elems)) := by
  constructor
  · constructor
    · intro h n hn
      rcases hz : (mainNames elems).filter
          (fun n => (launcherNames elems).contains n) with _ | ⟨m, rest⟩
      · have hnone := List.filter_eq_nil_iff.mp hz n hn.1
        exact hnone (by simpa using List.elem_iff.mpr hn.2)
      · unfold getMainActivity at h
        rw [hz] at h
        cases h
    · intro hall
      unfold getMainActivity
      rcases hz : (mainNames elems).filter
          (fun n => (launcherNames elems).contains n) with _ | ⟨m, rest⟩
      · rfl
      · exfalso
        have hm : m ∈ (mainNames elems).filter
            (fun n => (launcherNames elems).contains n) := by
          rw [hz]; exact List.mem_cons_self m rest
        have hmf := List.mem_filter.mp hm
        exact hall m ⟨hmf.1, by simpa using List.elem_iff.mp (by simpa using hmf.2)⟩
  · intro v hv
    unfold getMainActivity at hv
    rcases hz : (mainNames elems).filter
        (fun n => (launcherNames elems).contains n) with _ | ⟨m, rest⟩
    · rw [hz] at hv; cases hv
    · rw [hz] at hv
      have hm : m ∈ (mainNames elems).filter
          (fun n => (launcherNames elems).contains n) := by
        rw [hz]; exact List.mem_cons_self m rest
      have hmem := List.mem_filter.mp hm
      refine ⟨m, hmem.1,
        by simpa using List.elem_iff.mp (by simpa using hmem.2),
        (Option.some_injective _ hv).symm, ?_⟩
      rintro ⟨e, he, hal, hname, hne⟩
      unfold getActivities
      refine List.mem_map.mpr ⟨e, ?_, ?_⟩
      · refine List.mem_filter.mpr ⟨List.mem_filter.mpr ⟨he, ?_⟩, ?_⟩
        · simp [hal]
        · simp only [hname]
          simpa using hne
      · rw [hname, ← (Option.some_injective _ hv)]

/-- C2 witness: the non-null clause applied to `c2Elems`, where the
intersection is `["A"]`. -/
theorem c2_main_activity_witness :
    getMainActivity "com.ex" c2Elems = some "com.ex.A" ∧
    ∃ n, n ∈ mainNames c2Elems ∧ n ∈ launcherNames c2Elems ∧
      "com.ex.A" = formatValue "com.ex" n ∧
      ((∃ e ∈ c2Elems, e.isAlias = false ∧ e.name = n ∧ n ≠ "") →
        "com.ex.A" ∈ getActivities "com.ex" c2Elems) :=
  ⟨by decide, (c2_main_activity "com.ex" c2Elems).2 "com.ex.A" (by decide)⟩

/-- C3: with the central directory found at `ocd`, `is_signed_v2()`
returns `false` — not an error — when the 16 bytes ending at `ocd` differ
from `APK Sig Block 42`; when the magic matches, the u64 size prefix at
`ocd - 8 - size_of_block` must equal the size suffix (an assertion error
otherwise), the block is parsed as `(pair_size:u64, key:u32,
pair_size - 4 value bytes)` pairs, and the result is `true` iff a pair
with key `0x7109871A` is present. -/
theorem c3_is_signed_v2 (buf : List Nat) (ocd sizeOfBlock : Nat)
    (magic : List Nat)
    (hcd : readBytes buf ocd 4 = some pkCentralDir)
    (h24 : 24 ≤ ocd)
    (hsz : readU64 buf (ocd - 24) = some sizeOfBlock)
    (hmg : readBytes buf (ocd - 16) 16 = some magic) :
    (magic ≠ apkSigMagic → isSignedV2 buf ocd = .ok false) ∧
    (magic = apkSigMagic → sizeOfBlock + 8 ≤ ocd →
      ∀ pfx, readU64 buf (ocd - 8 - sizeOfBlock) = some pfx →
        ((pfx ≠ sizeOfBlock →
            isSignedV2 buf ocd =
              .error "Sizes at beginning and and does not match!") ∧
         (pfx = sizeOfBlock →
            ∀ kvs,
              collectPairs buf (ocd - 24) (ocd - sizeOfBlock) (ocd + 1) =
                some kvs →
              isSignedV2 buf ocd =
                .ok (kvs.any (fun p => p.1 = apkSigKeySignature)) ∧
              (isSignedV2 buf ocd = .ok true ↔
                ∃ p ∈ kvs, p.1 = apkSigKeySignature)))) := by
  have hltF : ¬ ocd < 24 := Nat.not_lt.mpr h24
  constructor
  · intro hmagic
    unfold isSignedV2
    simp only [hcd, ne_eq, not_true_eq_false, if_false, hltF, hsz, hmg,
      reduceIte, hmagic, not_false_eq_true, if_true]
  · intro hmagic hsb pfx hpfx
    have hsbF : ¬ ocd < sizeOfBlock + 8 := Nat.not_lt.mpr hsb
    constructor
    · intro hne
      unfold isSignedV2
      simp only [hcd, ne_eq, not_true_eq_false, if_false, hltF, hsz, hmg,
        hmagic, reduceIte, hsbF, hpfx, hne, not_false_eq_true, if_true]
    · intro heq kvs hkvs
      subst heq
      have hval : isSignedV2 buf ocd =
          .ok (kvs.any (fun p => p.1 = apkSigKeySignature)) := by
        unfold isSignedV2
        simp only [hcd, ne_eq, not_true_eq_false, if_false, hltF, hsz, hmg,
          hmagic, reduceIte, hsbF, hpfx, hkvs, not_false_eq_true, if_true]
      refine ⟨hval, ?_⟩
      rw [hval]
      constructor
      · intro h
        have hany : kvs.any (fun p => p.1 = apkSigKeySignature) = true := by
          cases hb : kvs.any (fun p => p.1 = apkSigKeySignature)
          · rw [hb] at h; cases h
          · rfl
        simpa using List.any_eq_true.mp hany
      · intro ⟨p, hp, hk⟩
        have : kvs.any (fun q => q.1 = apkSigKeySignature) = true :=
          List.any_eq_true.mpr ⟨p, hp, by simpa using hk⟩
        rw [this]

/-- C3 witness: on a concrete 49-byte APK tail with one pair keyed
`0x7109871A` the result is `.ok true`; with the magic's last byte
corrupted it is `.ok false`. -/
theorem c3_is_signed_v2_witness :
    isSignedV2 c3Buf 45 = .ok true ∧
    isSignedV2 c3BufBadMagic 45 = .ok false := by
  constructor
  · have h := ((c3_is_signed_v2 c3Buf 45 37 apkSigMagic (by decide) (by decide)
      (by decide) (by decide)).2 rfl (by decide) 37 (by decide)).2 rfl
      [(apkSigKeySignature, [1])] (by decide)
    exact h.2.mpr ⟨(apkSigKeySignature, [1]), by decide, rfl⟩
  · exact (c3_is_signed_v2 c3BufBadMagic 45 37
      [65, 80, 75, 32, 83, 105, 103, 32, 66, 108, 111, 99, 107, 32, 52, 51]
      (by decide) (by decide) (by decide) (by decide)).1 (by decide)

/-! ### Helper lemmas for the v2 certificate extraction round trip -/

theorem encodeU32_length (n : Nat) : (encodeU32 n).length = 4 := rfl

theorem leVal_encodeU32 {n : Nat} (h : n < 2 ^ 32) : leVal (encodeU32 n) = n := by
  simp only [leVal, encodeU32, List.foldr]
  omega

theorem readU32_drop {buf : List Nat} {pos k : Nat} {rest : List Nat}
    (h : buf.drop pos = encodeU32 k ++ rest) (hk : k < 2 ^ 32) :
    readU32 buf pos = some k := by
  have hlen := congrArg List.length h
  simp only [List.length_drop, List.length_append, encodeU32_length] at hlen
  have hb : pos + 4 ≤ buf.length := by omega
  unfold readU32 readBytes
  rw [if_pos hb, h, show (4 : Nat) = (encodeU32 k).length from rfl,
    List.take_left]
  simp [leVal_encodeU32 hk]

theorem readAvail_drop {buf : List Nat} {pos : Nat} {c rest : List Nat}
    (h : buf.drop pos = c ++ rest) : readAvail buf pos c.length = c := by
  unfold readAvail
  rw [h, List.take_left]

theorem drop_chunk {buf : List Nat} {pos : Nat} {xs rest : List Nat} {k q : Nat}
    (h : buf.drop pos = xs ++ rest) (hk : xs.length = k) (hq : q = pos + k) :
    buf.drop q = rest := by
  subst hk hq
  rw [← List.drop_drop, h, List.drop_left]

theorem certsBytes_nil : certsBytes [] = [] := rfl

theorem certsBytes_cons (c : List Nat) (cs : List (List Nat)) :
    certsBytes (c :: cs) = encodeU32 c.length ++ (c ++ certsBytes cs) := by
  simp [certsBytes, lp, List.append_assoc]

theorem certsBytes_cons_length (c : List Nat) (cs : List (List Nat)) :
    (certsBytes (c :: cs)).length = 4 + c.length + (certsBytes cs).length := by
  simp [certsBytes_cons, encodeU32]
  omega

theorem count_le_certsBytes_length (cs : List (List Nat)) :
    cs.length ≤ (certsBytes cs).length := by
  induction cs with
  | nil => simp [certsBytes_nil]
  | cons c cs ih =>
    rw [certsBytes_cons_length]
    simp only [List.length_cons]
    omega

theorem signedDataBytes_eq (s : V2Signer) :
    signedDataBytes s =
      encodeU32 s.digests.length ++ (s.digests ++
        (encodeU32 (certsBytes s.certs).length ++ (certsBytes s.certs ++
          (encodeU32 s.attrs.length ++ s.attrs)))) := by
  simp [signedDataBytes, lp, List.append_assoc]

theorem signerBodyBytes_eq (s : V2Signer) :
    signerBodyBytes s =
      encodeU32 (signedDataBytes s).length ++ (signedDataBytes s ++
        (encodeU32 s.sigs.length ++ (s.sigs ++
          (encodeU32 s.pubkey.length ++ s.pubkey)))) := by
  simp [signerBodyBytes, lp, List.append_assoc]

theorem encodeSigner_eq (s : V2Signer) :
    encodeSigner s =
      encodeU32 (signerBodyBytes s).length ++ signerBodyBytes s := by
  simp [encodeSigner, lp]

theorem encodeSigner_length (s : V2Signer) :
    (encodeSigner s).length = 4 + (signerBodyBytes s).length := by
  rw [encodeSigner_eq]
  simp only [List.length_append, encodeU32_length]

theorem count_le_flatten_length (signers : List V2Signer) :
    signers.length ≤ ((signers.map encodeSigner).flatten).length := by
  induction signers with
  | nil => simp
  | cons s rest ih =>
    simp only [List.map_cons, List.flatten_cons, List.length_cons,
      List.length_append, encodeSigner_length]
    omega

theorem certsLoop_ok :
    ∀ (certs : List (List Nat)) (bb : List Nat) (pos stop fuel : Nat)
      (post : List Nat),
      (∀ c ∈ certs, c.length < 2 ^ 32) → certs.length < fuel →
      bb.drop pos = certsBytes certs ++ post →
      stop = pos + (certsBytes certs).length →
      certsLoop bb stop pos fuel = some (certs, stop) := by
  intro certs
  induction certs with
  | nil =>
    intro bb pos stop fuel post _ hfuel hdrop hstop
    cases fuel with
    | zero => omega
    | succ f =>
      simp only [certsLoop]
      rw [if_neg (by simp [hstop, certsBytes_nil])]
      simp [hstop, certsBytes_nil]
  | cons c cs ih =>
    intro bb pos stop fuel post hwf hfuel hdrop hstop
    cases fuel with
    | zero => omega
    | succ f =>
      rw [certsBytes_cons, List.append_assoc] at hdrop
      have hc : c.length < 2 ^ 32 := hwf c (List.mem_cons_self c cs)
      have r1 : readU32 bb pos = some c.length := readU32_drop hdrop hc
      have h1 : bb.drop (pos + 4) = c ++ (certsBytes cs ++ post) := by
        have := drop_chunk hdrop (encodeU32_length c.length) rfl
        simpa [List.append_assoc] using this
      have hread : readAvail bb (pos + 4) c.length = c := readAvail_drop h1
      have h2 : bb.drop (pos + 4 + c.length) = certsBytes cs ++ post :=
        drop_chunk h1 rfl rfl
      have hstop' : stop = (pos + 4 + c.length) + (certsBytes cs).length := by
        rw [hstop, certsBytes_cons_length]
        omega
      have hlt : pos < stop := by
        rw [hstop, certsBytes_cons_length]
        omega
      have hrec := ih bb (pos + 4 + c.length) stop f post
        (fun x hx => hwf x (List.mem_cons_of_mem _ hx))
        (by simpa using hfuel) h2 hstop'
      simp only [certsLoop, if_pos hlt, r1, hread, hrec]
      rfl

theorem signersLoop_ok :
    ∀ (signers : List V2Signer) (bb : List Nat) (pos fuel : Nat),
      (∀ s ∈ signers, signerWF s) → signers.length < fuel →
      bb.drop pos = (signers.map encodeSigner).flatten →
      signersLoop bb pos fuel =
        some ((signers.map (fun s => s.certs)).flatten) := by
  intro signers
  induction signers with
  | nil =>
    intro bb pos fuel _ hfuel hdrop
    cases fuel with
    | zero => omega
    | succ f =>
      have hle : bb.length ≤ pos := List.drop_eq_nil_iff.mp (by simpa using hdrop)
      simp only [signersLoop, List.map_nil, List.flatten_nil]
      rw [if_neg (by omega)]
  | cons s rest ih =>
    intro bb pos fuel hwf hfuel hdrop
    cases fuel with
    | zero => omega
    | succ f =>
      obtain ⟨hdl, hcwf, hcl, hsdl, hal, hsl, hpl, hbl⟩ :=
        hwf s (List.mem_cons_self s rest)
      rw [List.map_cons, List.flatten_cons, encodeSigner_eq,
        List.append_assoc] at hdrop
      -- position pos: body length
      have r1 : readU32 bb pos = some (signerBodyBytes s).length :=
        readU32_drop hdrop hbl
      have h1 : bb.drop (pos + 4) =
          signerBodyBytes s ++ (rest.map encodeSigner).flatten :=
        drop_chunk hdrop (encodeU32_length _) rfl
      rw [signerBodyBytes_eq] at h1
      simp only [List.append_assoc] at h1
      -- position pos + 4: signed-data length
      have r2 : readU32 bb (pos + 4) = some (signedDataBytes s).length :=
        readU32_drop h1 hsdl
      have h2 := drop_chunk h1 (encodeU32_length _) (show pos + 8 = pos + 4 + 4 by omega)
      rw [signedDataBytes_eq] at h2
      simp only [List.append_assoc] at h2
      -- position pos + 8: digests length
      have r3 : readU32 bb (pos + 8) = some s.digests.length :=
        readU32_drop h2 hdl
      have h3 := drop_chunk h2 (encodeU32_length _)
        (show pos + 12 = pos + 8 + 4 by omega)
      have h4 := drop_chunk h3 rfl
        (show pos + 12 + s.digests.length = pos + 12 + s.digests.length
          from rfl)
      -- position pos + 12 + |digests|: certs size
      have r4 : readU32 bb (pos + 12 + s.digests.length) =
          some (certsBytes s.certs).length := readU32_drop h4 hcl
      have h5 := drop_chunk h4 (encodeU32_length _)
        (show pos + 12 + s.digests.length + 4 =
          pos + 12 + s.digests.length + 4 from rfl)
      -- the certificates loop over the certsBytes segment
      have hcount : s.certs.length < bb.length + 1 := by
        have hbb := congrArg List.length h5
        simp only [List.length_drop, List.length_append] at hbb
        have := count_le_certsBytes_length s.certs
        omega
      have hCert := certsLoop_ok s.certs bb (pos + 12 + s.digests.length + 4)
        (pos + 12 + s.digests.length + 4 + (certsBytes s.certs).length)
        (bb.length + 1) _ hcwf hcount h5 rfl
      -- position after the certificates: additional attributes size
      have h6 := drop_chunk h5 rfl
        (show pos + 12 + s.digests.length + 4 + (certsBytes s.certs).length =
          pos + 12 + s.digests.length + 4 + (certsBytes s.certs).length
          from rfl)
      have r5 : readU32 bb
          (pos + 12 + s.digests.length + 4 + (certsBytes s.certs).length) =
          some s.attrs.length := readU32_drop h6 hal
      have h7 := drop_chunk h6 (encodeU32_length _)
        (show pos + 12 + s.digests.length + 4 + (certsBytes s.certs).length
            + 4 =
          pos + 12 + s.digests.length + 4 + (certsBytes s.certs).length + 4
          from rfl)
      have h8 := drop_chunk h7 rfl
        (show pos + 12 + s.digests.length + 4 + (certsBytes s.certs).length
            + 4 + s.attrs.length =
          pos + 12 + s.digests.length + 4 + (certsBytes s.certs).length + 4
            + s.attrs.length from rfl)
      -- signatures size
      have r6 : readU32 bb
          (pos + 12 + s.digests.length + 4 + (certsBytes s.certs).length + 4
            + s.attrs.length) = some s.sigs.length := readU32_drop h8 hsl
      have h9 := drop_chunk h8 (encodeU32_length _)
        (show pos + 12 + s.digests.length + 4 + (certsBytes s.certs).length
            + 4 + s.attrs.length + 4 =
          pos + 12 + s.digests.length + 4 + (certsBytes s.certs).length + 4
            + s.attrs.length + 4 from rfl)
      have h10 := drop_chunk h9 rfl
        (show pos + 12 + s.digests.length + 4 + (certsBytes s.certs).length
            + 4 + s.attrs.length + 4 + s.sigs.length =
          pos + 12 + s.digests.length + 4 + (certsBytes s.certs).length + 4
            + s.attrs.length + 4 + s.sigs.length from rfl)
      -- public key size
      have r7 : readU32 bb
          (pos + 12 + s.digests.length + 4 + (certsBytes s.certs).length + 4
            + s.attrs.length + 4 + s.sigs.length) =
          some s.pubkey.length := readU32_drop h10 hpl
      have h11 := drop_chunk h10 (encodeU32_length _)
        (show pos + 12 + s.digests.length + 4 + (certsBytes s.certs).length
            + 4 + s.attrs.length + 4 + s.sigs.length + 4 =
          pos + 12 + s.digests.length + 4 + (certsBytes s.certs).length + 4
            + s.attrs.length + 4 + s.sigs.length + 4 from rfl)
      have h12 := drop_chunk h11 rfl
        (show pos + 12 + s.digests.length + 4 + (certsBytes s.certs).length
            + 4 + s.attrs.length + 4 + s.sigs.length + 4 + s.pubkey.length =
          pos + 12 + s.digests.length + 4 + (certsBytes s.certs).length + 4
            + s.attrs.length + 4 + s.sigs.length + 4 + s.pubkey.length
          from rfl)
      -- the remaining signers by induction
      have hrec := ih bb
        (pos + 12 + s.digests.length + 4 + (certsBytes s.certs).length + 4
          + s.attrs.length + 4 + s.sigs.length + 4 + s.pubkey.length) f
        (fun x hx => hwf x (List.mem_cons_of_mem _ hx))
        (by simpa using hfuel) h12
      have hpos : pos < bb.length := by
        have hbb := congrArg List.length hdrop
        simp only [List.length_drop, List.length_append, encodeU32_length]
          at hbb
        omega
      simp only [signersLoop, if_pos hpos, r1, r2, r3, r4, hCert, r5, r6, r7,
        hrec, List.map_cons, List.flatten_cons]
      rfl

/-- C4 counterexample: the claim asserts that for any archive with a v2
signing block the certificate list is non-empty (with X.509-valid
elements).  `c4EmptyCertsBlock` is the well-formed signature-pair value
for one signer with zero certificates (it equals
`encodeV2Block [⟨[], [], [], [], []⟩]`), and the code returns the empty
list on it. -/
theorem c4_counterexample :
    c4EmptyCertsBlock = encodeV2Block [⟨[], [], [], [], []⟩] ∧
    getCertificatesDerV2 c4EmptyCertsBlock =
      .ok ([] : List (List Nat)) := by
  exact ⟨by decide, rfl⟩

/-- C4 (amended): `get_certificates_der_v2` parses the length-prefixed
signer sequence; within each signer it reads the signer and signed-data
sizes, then descends into the signed data — reading the digests size and
skipping the digests (rather than skipping the signed data as one chunk)
— reads the certs_size-framed sequence of `(cert_size:u32, cert_bytes)`
records, then skips the additional attributes, the signatures and the
public key, and returns every `cert_bytes` flattened across signers in
on-disk byte order; in particular one signer holding two certificates
yields exactly those two blobs in order.  The list may be empty (a signer
can carry zero certificates) and no X.509 validation is performed. -/
theorem c4_certificates_der_v2 (signers : List V2Signer)
    (hwf : ∀ s ∈ signers, signerWF s)
    (hlen : ((signers.map encodeSigner).flatten).length < 2 ^ 32) :
    getCertificatesDerV2 (encodeV2Block signers) =
      .ok ((signers.map (fun s => s.certs)).flatten) := by
  have h0 : (encodeV2Block signers).drop 0 =
      encodeU32 ((signers.map encodeSigner).flatten).length ++
        (signers.map encodeSigner).flatten := by
    simp [encodeV2Block, lp]
  have r0 : readU32 (encodeV2Block signers) 0 =
      some ((signers.map encodeSigner).flatten).length := readU32_drop h0 hlen
  have hbl : (encodeV2Block signers).length =
      4 + ((signers.map encodeSigner).flatten).length := by
    simp only [encodeV2Block, lp, List.length_append, encodeU32_length]
  have hdrop4 : (encodeV2Block signers).drop 4 =
      (signers.map encodeSigner).flatten :=
    drop_chunk h0 (encodeU32_length _) (show (4 : Nat) = 0 + 4 by omega)
  have hcount : signers.length < (encodeV2Block signers).length + 1 := by
    have := count_le_flatten_length signers
    omega
  have hloop := signersLoop_ok signers (encodeV2Block signers) 4
    ((encodeV2Block signers).length + 1) hwf hcount hdrop4
  unfold getCertificatesDerV2
  simp only [r0]
  rw [if_pos (by omega)]
  simp only [hloop]

/-- C4 witness: one signer holding two certificates `[1, 2]` and `[3]`
yields exactly those two DER blobs in on-disk order. -/
theorem c4_certificates_der_v2_witness :
    (∀ s ∈ [(⟨[], [[1, 2], [3]], [], [], []⟩ : V2Signer)], signerWF s) ∧
    getCertificatesDerV2 (encodeV2Block [⟨[], [[1, 2], [3]], [], [], []⟩]) =
      .ok [[1, 2], [3]] :=
  ⟨by decide, by
    have h := c4_certificates_der_v2 [⟨[], [[1, 2], [3]], [], [], []⟩]
      (by decide) (by decide)
    simpa using h⟩

end Apkparser
